import Mathlib

/-
  Verification of the client-prediction / server-reconciliation netcode
  (movement model, snapshot delta-diff engine, server input cache stepping,
  client staleness rejection and misprediction correction, visual smoother).

  Shallow embedding conventions:
  * Rust `f32` scalars are modelled as exact rationals (`ℚ`); `u32`/`u64`/`u128`
    become `ℕ`.  `glam::Vec3` becomes a record of three rationals.
  * The floating-point math-library functions `sqrt`, `cos`, `sin` (used by
    `Vec3::length`, `Vec3::normalize` and `Quat::from_rotation_y`) are modelled
    as an abstract parameter `MathOps`; theorems that evaluate them constrain
    the parameter exactly at the arguments that occur (e.g. `sqrt 1 = 1`).
  * A Bevy `Transform` enters the movement code only through its `translation`
    field, so it is modelled as that `Vec3` alone.
  * In-place mutation (`&mut`) is modelled by returning the updated values.
-/

namespace Netcode

/-- Exact-rational model of `glam::Vec3` (three `f32` components). -/
structure Vec3 where
  x : ℚ
  y : ℚ
  z : ℚ
deriving DecidableEq

instance : Add Vec3 := ⟨fun a b => ⟨a.x + b.x, a.y + b.y, a.z + b.z⟩⟩

instance : Sub Vec3 := ⟨fun a b => ⟨a.x - b.x, a.y - b.y, a.z - b.z⟩⟩

instance : Neg Vec3 := ⟨fun a => ⟨-a.x, -a.y, -a.z⟩⟩

/-- `glam` component-wise scaling `Vec3 * f32`. -/
instance : HMul Vec3 ℚ Vec3 := ⟨fun a k => ⟨a.x * k, a.y * k, a.z * k⟩⟩

/-- `glam` component-wise division `Vec3 / f32`. -/
instance : HDiv Vec3 ℚ Vec3 := ⟨fun a k => ⟨a.x / k, a.y / k, a.z / k⟩⟩

/-- `Vec3::ZERO`. -/
def Vec3.zero : Vec3 := ⟨0, 0, 0⟩

/-- `glam::Vec3::length_squared` (also `distance_squared` after subtraction). -/
def Vec3.normSq (v : Vec3) : ℚ := v.x * v.x + v.y * v.y + v.z * v.z

/-- Abstract model of the `f32` math-library functions consumed by the code
(`f32::sqrt` behind `Vec3::length`, and `f32::cos`/`f32::sin` behind
`Quat::from_rotation_y`).  Theorems constrain it only at the values at which
the code evaluates it. -/
structure MathOps where
  sqrt : ℚ → ℚ
  cos : ℚ → ℚ
  sin : ℚ → ℚ

/-- `glam::Vec3::length`, i.e. `sqrt (length_squared v)`. -/
def Vec3.length (ops : MathOps) (v : Vec3) : ℚ := ops.sqrt v.normSq

/-- `glam::Vec3::normalize`, i.e. `v / length v`. -/
def Vec3.normalize (ops : MathOps) (v : Vec3) : Vec3 := v / Vec3.length ops v

/-- The action of `Quat::from_rotation_y(yaw)`: rotation about the Y axis,
recorded by the cosine and sine of the yaw angle. -/
structure RotY where
  c : ℚ
  s : ℚ

/-- `Quat::from_rotation_y` (src/core.rs:121), modelled through `MathOps`. -/
def RotY.fromYaw (ops : MathOps) (yaw : ℚ) : RotY := ⟨ops.cos yaw, ops.sin yaw⟩

/-- `Quat::mul_vec3` for a Y-axis rotation: `X ↦ (cos, 0, -sin)`,
`Y ↦ Y`, `Z ↦ (sin, 0, cos)`. -/
def RotY.mulVec3 (r : RotY) (v : Vec3) : Vec3 :=
  ⟨v.x * r.c + v.z * r.s, v.y, -(v.x * r.s) + v.z * r.c⟩

/-- `PlayerInput` (src/core.rs:7-25). -/
structure PlayerInput where
  id : ℕ
  forward : Bool
  backward : Bool
  left : Bool
  right : Bool
  jump : Bool
  pitch : ℚ
  yaw : ℚ
  final_translation : Vec3
  timestamp : ℕ
deriving DecidableEq

/-- `PlayerInput::compute_move_direction` (src/core.rs:28-46). -/
def PlayerInput.compute_move_direction (self : PlayerInput) (ops : MathOps)
    (rotation : RotY) : Vec3 :=
  let d0 := Vec3.zero
  let d1 := if self.forward then d0 - rotation.mulVec3 ⟨0, 0, 1⟩ else d0
  let d2 := if self.backward then d1 + rotation.mulVec3 ⟨0, 0, 1⟩ else d1
  let d3 := if self.left then d2 - rotation.mulVec3 ⟨1, 0, 0⟩ else d2
  let d4 := if self.right then d3 + rotation.mulVec3 ⟨1, 0, 0⟩ else d3
  if 0 < Vec3.length ops d4 then Vec3.normalize ops d4 else d4

/-- `Character` (src/core.rs:100-109); the owning `ClientId` is its raw `u64`. -/
structure Character where
  owner_client_id : ℕ
  move_accel : ℚ
  move_speed : ℚ
  move_friction : ℚ
  velocity : Vec3
  pitch : ℚ
  yaw : ℚ
deriving DecidableEq

/-- `Character::accelerate` (src/core.rs:144-163). -/
def Character.accelerate (wish_direction : Vec3) (wish_speed current_speed
    accel delta_seconds : ℚ) : Vec3 :=
  let add_speed := wish_speed - current_speed
  if add_speed ≤ 0 then Vec3.zero
  else
    let accel_speed := accel * delta_seconds * wish_speed
    let accel_speed := if add_speed < accel_speed then add_speed else accel_speed
    wish_direction * accel_speed

/-- `Character::deccelerate` (src/core.rs:165-186).  `ℚ` division is total
(`x / 0 = 0`), and the guard `new_speed ≠ 0` mirrors the source exactly. -/
def Character.deccelerate (velocity : Vec3) (current_speed friction
    delta_seconds : ℚ) : Vec3 :=
  let drop := 0 + current_speed * friction * delta_seconds
  let new_speed := current_speed - drop
  let new_speed := if new_speed < 0 then 0 else new_speed
  let new_speed := if new_speed ≠ 0 then new_speed / current_speed else new_speed
  velocity * new_speed

/-- `Character::process_input` (src/core.rs:112-142).  Returns the updated
character, the updated `Transform` translation, and the input with its
`final_translation` field rewritten (the source mutates all three in place). -/
def Character.process_input (self : Character) (ops : MathOps)
    (input : PlayerInput) (translation : Vec3) (delta_seconds : ℚ) :
    Character × Vec3 × PlayerInput :=
  let c1 : Character := { self with pitch := input.pitch, yaw := input.yaw }
  let rotation := RotY.fromYaw ops c1.yaw
  let wish_direction := input.compute_move_direction ops rotation
  let v1 := Character.deccelerate c1.velocity (Vec3.length ops c1.velocity)
      c1.move_friction delta_seconds
  let v2 := v1 + Character.accelerate wish_direction c1.move_speed
      (Vec3.length ops v1) c1.move_accel delta_seconds
  let t1 := translation + v2 * delta_seconds
  ({ c1 with velocity := v2 }, t1, { input with final_translation := t1 })

/-- `PlayerInputCacheEntry` (src/server.rs:31-36). -/
structure PlayerInputCacheEntry where
  input_groups : List (List PlayerInput)
  latest_processed_input : Option PlayerInput
  client_latest_processed_snapshot_id : Option ℕ
deriving DecidableEq

/-- One queued batch in the server loop body (src/server.rs:231-240): skip an
empty batch, otherwise apply each entry at `chopped_delta / len` in order,
recording each applied input as the new `latest_processed_input`. -/
def serverProcessGroup (ops : MathOps) (chopped_delta : ℚ)
    (group : List PlayerInput) (c : Character) (t : Vec3)
    (latest : Option PlayerInput) : Character × Vec3 × Option PlayerInput :=
  if group.isEmpty then (c, t, latest)
  else
    let even_more_chopped_delta := chopped_delta / (group.length : ℚ)
    group.foldl (fun acc input =>
      let r := Character.process_input acc.1 ops input acc.2.1
          even_more_chopped_delta
      (r.1, r.2.1, some r.2.2)) (c, t, latest)

/-- The queued-batches loop of `input_processing_system` (src/server.rs:231-240). -/
def serverProcessGroups (ops : MathOps) (chopped_delta : ℚ) :
    List (List PlayerInput) → Character → Vec3 → Option PlayerInput →
    Character × Vec3 × Option PlayerInput
  | [], c, t, latest => (c, t, latest)
  | group :: rest, c, t, latest =>
    let r := serverProcessGroup ops chopped_delta group c t latest
    serverProcessGroups ops chopped_delta rest r.1 r.2.1 r.2.2

/-- The per-entity body of `input_processing_system` (src/server.rs:221-242):
with no queued batches, re-apply the single `latest_processed_input` (if any)
at the full tick delta; otherwise chop the tick delta across the batches,
process them all, and clear the queue. -/
def input_processing_tick (ops : MathOps) (delta_seconds : ℚ)
    (entry : PlayerInputCacheEntry) (c : Character) (t : Vec3) :
    PlayerInputCacheEntry × Character × Vec3 :=
  if entry.input_groups.isEmpty then
    match entry.latest_processed_input with
    | none => (entry, c, t)
    | some input =>
      let r := Character.process_input c ops input t delta_seconds
      ({ entry with latest_processed_input := some r.2.2 }, r.1, r.2.1)
  else
    let chopped_delta := delta_seconds / (entry.input_groups.length : ℚ)
    let r := serverProcessGroups ops chopped_delta entry.input_groups c t
        entry.latest_processed_input
    ({ entry with input_groups := [], latest_processed_input := r.2.2 },
      r.1, r.2.1)

/-- The (input, time-slice) pairs consumed by the queued-batches loop of
`input_processing_system`, in application order: an empty batch contributes
nothing, a non-empty batch of length `m` contributes each of its entries with
slice `chopped_delta / m`. -/
def serverSlices (chopped_delta : ℚ) (groups : List (List PlayerInput)) :
    List (PlayerInput × ℚ) :=
  groups.flatMap (fun g =>
    if g.isEmpty then []
    else g.map (fun i => (i, chopped_delta / (g.length : ℚ))))

/-- Sequential application of explicit (input, time-slice) pairs, the flat
flat form of the nested batch loop of the server. -/
def applySlices (ops : MathOps) (slices : List (PlayerInput × ℚ))
    (c : Character) (t : Vec3) (latest : Option PlayerInput) :
    Character × Vec3 × Option PlayerInput :=
  slices.foldl (fun acc is =>
    let r := Character.process_input acc.1 ops is.1 acc.2.1 is.2
    (r.1, r.2.1, some r.2.2)) (c, t, latest)

/-- `CharacterSnapshot` (src/core.rs:229-234). -/
structure CharacterSnapshot where
  client_id : ℕ
  translation : Option Vec3
  velocity : Option Vec3
deriving DecidableEq

/-- `CharacterSnapshot::from_character` (src/core.rs:237-243). -/
def CharacterSnapshot.from_character (c : Character) (t : Vec3) :
    CharacterSnapshot :=
  { client_id := c.owner_client_id, translation := some t,
    velocity := some c.velocity }

/-- `CharacterSnapshot::apply` (src/core.rs:245-252): overwrite only the
fields present in the snapshot. -/
def CharacterSnapshot.apply (self : CharacterSnapshot) (c : Character)
    (t : Vec3) : Character × Vec3 :=
  (match self.velocity with
   | some v => { c with velocity := v }
   | none => c,
   match self.translation with
   | some tr => tr
   | none => t)

/-- `CharacterSnapshot::diff` (src/core.rs:254-280): a field is kept only when
both sides carry it and the values differ. -/
def CharacterSnapshot.diff (self old : CharacterSnapshot) : CharacterSnapshot :=
  { client_id := self.client_id
    translation :=
      match self.translation, old.translation with
      | some n, some o => if n ≠ o then some n else none
      | _, _ => none
    velocity :=
      match self.velocity, old.velocity with
      | some n, some o => if n ≠ o then some n else none
      | _, _ => none }

/-- `CharacterSnapshot::is_empty` (src/core.rs:282-284). -/
def CharacterSnapshot.is_empty (self : CharacterSnapshot) : Bool :=
  self.translation.isNone && self.velocity.isNone

/-- `Snapshot` (src/core.rs:189-199). -/
structure Snapshot where
  id : ℕ
  latest_processed_input_id : Option ℕ
  character_snapshots : List CharacterSnapshot
  timestamp : ℕ
deriving DecidableEq

/-- The entity-entry loop of `Snapshot::diff` (src/core.rs:207-224): per entry
of `new`, diff against the matching baseline entry (dropping empty diffs), or
include the entry in full when the baseline lacks it. -/
def diffEntries (new old : List CharacterSnapshot) : List CharacterSnapshot :=
  new.filterMap (fun snapshot =>
    match old.find? (fun o => o.client_id == snapshot.client_id) with
    | some old_snapshot =>
      let d := snapshot.diff old_snapshot
      if d.is_empty then none else some d
    | none => some snapshot)

/-- `Snapshot::diff` (src/core.rs:202-227). -/
def Snapshot.diff (self old : Snapshot) : Snapshot :=
  { id := self.id
    timestamp := self.timestamp
    latest_processed_input_id := self.latest_processed_input_id
    character_snapshots :=
      diffEntries self.character_snapshots old.character_snapshots }

/-- Lookup of the snapshot entry for a given entity followed by
`CharacterSnapshot::apply`; entities without an entry keep their state.  This
is how a received (diffed) snapshot acts on the state of one entity. -/
def applyEntryFor (l : List CharacterSnapshot) (cid : ℕ) (c : Character)
    (t : Vec3) : Character × Vec3 :=
  match l.find? (fun e => e.client_id == cid) with
  | some d => d.apply c t
  | none => (c, t)

/-- The replay inner loop of `receive_snapshot_system` (src/client.rs:137-145):
inputs with id at most the authority-processed one are skipped, newer ones are
re-applied (their `final_translation` fields are rewritten in place). -/
def replayInputs (ops : MathOps) (chopped_delta : ℚ)
    (latest_processed_input_id : ℕ) :
    List PlayerInput → Character → Vec3 →
    List PlayerInput × Character × Vec3
  | [], c, t => ([], c, t)
  | input :: rest, c, t =>
    if latest_processed_input_id < input.id then
      let r := Character.process_input c ops input t chopped_delta
      let rec2 := replayInputs ops chopped_delta latest_processed_input_id
          rest r.1 r.2.1
      (r.2.2 :: rec2.1, rec2.2)
    else
      let rec2 := replayInputs ops chopped_delta latest_processed_input_id
          rest c t
      (input :: rec2.1, rec2.2)

/-- The replay outer loop of `receive_snapshot_system` (src/client.rs:132-146):
each retained batch is replayed with slice `fixed Δt / batch length`. -/
def replayGroups (ops : MathOps) (delta_seconds : ℚ)
    (latest_processed_input_id : ℕ) :
    List (List PlayerInput) → Character → Vec3 →
    List (List PlayerInput) × Character × Vec3
  | [], c, t => ([], c, t)
  | group :: rest, c, t =>
    let chopped_delta := delta_seconds / (group.length : ℚ)
    let r := replayInputs ops chopped_delta latest_processed_input_id group c t
    let rec2 := replayGroups ops delta_seconds latest_processed_input_id rest
        r.2.1 r.2.2
    (r.1 :: rec2.1, rec2.2)

/-- The misprediction-correction block of `receive_snapshot_system`
(src/client.rs:124-149): save pitch/yaw, overwrite state from the snapshot,
replay every newer buffered input, then restore pitch/yaw. -/
def applyLocalCorrection (ops : MathOps) (delta_seconds : ℚ)
    (cs : CharacterSnapshot) (latest_processed_input_id : ℕ)
    (groups : List (List PlayerInput)) (c : Character) (t : Vec3) :
    List (List PlayerInput) × Character × Vec3 :=
  let pitch := c.pitch
  let yaw := c.yaw
  let a := cs.apply c t
  let r := replayGroups ops delta_seconds latest_processed_input_id groups
      a.1 a.2
  (r.1, { r.2.1 with pitch := pitch, yaw := yaw }, r.2.2)

/-- Per-entity dispatch of `receive_snapshot_system` (src/client.rs:105-156):
the entity of the local player is corrected (and its inputs replayed) only when the
snapshot carries a translation, names a processed input that is still buffered,
and the squared divergence exceeds `0.0001`; remote entities apply the
snapshot directly. -/
def clientProcessCharacterSnapshot (ops : MathOps) (delta_seconds : ℚ)
    (local_client_id : ℕ) (snap_latest_processed_input_id : Option ℕ)
    (groups : List (List PlayerInput)) (cs : CharacterSnapshot)
    (c : Character) (t : Vec3) :
    List (List PlayerInput) × Character × Vec3 :=
  if cs.client_id == local_client_id then
    match cs.translation, snap_latest_processed_input_id with
    | some snap_translation, some lid =>
      match groups.flatten.find? (fun input => input.id == lid) with
      | some latest_processed_input =>
        if 1/10000 <
            (snap_translation - latest_processed_input.final_translation).normSq
        then applyLocalCorrection ops delta_seconds cs lid groups c t
        else (groups, c, t)
      | none => (groups, c, t)
    | _, _ => (groups, c, t)
  else
    let a := cs.apply c t
    (groups, a.1, a.2)

/-- Mutation of the first character whose owner matches the snapshot entry
(`characters.iter_mut().find(...)`, src/client.rs:101-104); entities with no
matching character are ignored. -/
def applyToFirstMatch (ops : MathOps) (delta_seconds : ℚ)
    (local_client_id : ℕ) (snap_latest_processed_input_id : Option ℕ)
    (cs : CharacterSnapshot) (groups : List (List PlayerInput)) :
    List (Character × Vec3) →
    List (List PlayerInput) × List (Character × Vec3)
  | [] => (groups, [])
  | p :: rest =>
    if p.1.owner_client_id == cs.client_id then
      let r := clientProcessCharacterSnapshot ops delta_seconds
          local_client_id snap_latest_processed_input_id groups cs p.1 p.2
      (r.1, (r.2.1, r.2.2) :: rest)
    else
      let r := applyToFirstMatch ops delta_seconds local_client_id
          snap_latest_processed_input_id cs groups rest
      (r.1, p :: r.2)

/-- The loop over the entity entries of a snapshot (src/client.rs:99-158). -/
def processSnapshotEntries (ops : MathOps) (delta_seconds : ℚ)
    (local_client_id : ℕ) (snap_latest_processed_input_id : Option ℕ) :
    List CharacterSnapshot → List (List PlayerInput) →
    List (Character × Vec3) →
    List (List PlayerInput) × List (Character × Vec3)
  | [], groups, chars => (groups, chars)
  | cs :: rest, groups, chars =>
    let r := applyToFirstMatch ops delta_seconds local_client_id
        snap_latest_processed_input_id cs groups chars
    processSnapshotEntries ops delta_seconds local_client_id
        snap_latest_processed_input_id rest r.1 r.2

/-- The client state touched by `receive_snapshot_system`: the last-processed snapshot id of the input
history and retained input batches, and the characters with
their transforms. -/
structure ClientState where
  latest_processed_snapshot_id : Option ℕ
  input_groups : List (List PlayerInput)
  characters : List (Character × Vec3)
deriving DecidableEq

/-- Processing of one received snapshot message by `receive_snapshot_system`
(src/client.rs:84-159): a snapshot whose id is not strictly newer than the
last processed one is discarded before any state is touched. -/
def receive_snapshot (ops : MathOps) (delta_seconds : ℚ)
    (local_client_id : ℕ) (st : ClientState) (snapshot : Snapshot) :
    ClientState :=
  let should_process :=
    match st.latest_processed_snapshot_id with
    | some latest => decide (latest < snapshot.id)
    | none => true
  if should_process then
    let r := processSnapshotEntries ops delta_seconds local_client_id
        snapshot.latest_processed_input_id snapshot.character_snapshots
        st.input_groups st.characters
    { latest_processed_snapshot_id := some snapshot.id,
      input_groups := r.1, characters := r.2 }
  else st

/-- `SMOOTH_CORRECTION_DISTANCE_THRESHOLD` (src/main.rs:27). -/
def SMOOTH_CORRECTION_DISTANCE_THRESHOLD : ℚ := 1/1000

/-- `SMOOTH_CORRECTION_STEP_MIN` (src/main.rs:28). -/
def SMOOTH_CORRECTION_STEP_MIN : ℚ := 1/4

/-- `SMOOTH_CORRECTION_STEP_MAX` (src/main.rs:29). -/
def SMOOTH_CORRECTION_STEP_MAX : ℚ := 3/4

/-- The interpolation step fraction computed by
`post_fixed_player_visuals_system` (src/main.rs:307-311) from the rendered
versus authoritative divergence distance `diff`. -/
def dynamicStep (diff : ℚ) : ℚ :=
  let step_scale := max (SMOOTH_CORRECTION_DISTANCE_THRESHOLD - diff) 0 /
      SMOOTH_CORRECTION_DISTANCE_THRESHOLD
  SMOOTH_CORRECTION_STEP_MIN +
    (SMOOTH_CORRECTION_STEP_MAX - SMOOTH_CORRECTION_STEP_MIN) * step_scale

/-- Concrete math-library model used to instantiate theorems: it agrees with
the real `sqrt`, `cos`, `sin` at the arguments the instantiated code reaches
(`sqrt 1 = 1`, `sqrt (49/64) = 7/8`, `cos 0 = 1`, `sin 0 = 0`). -/
def opsW : MathOps :=
  { sqrt := fun q => if q = 1 then 1 else if q = 49/64 then 7/8 else 0
    cos := fun q => if q = 0 then 1 else 0
    sin := fun _ => 0 }

/-- A forward-pressed input with yaw 0, as captured by `capture_inputs_system`
when only `KeyW` is held with the camera at rest. -/
def iFwd : PlayerInput :=
  { id := 5, forward := true, backward := false, left := false, right := false,
    jump := false, pitch := 0, yaw := 0, final_translation := Vec3.zero,
    timestamp := 0 }

/-- A neutral input (no movement keys), used as a list element where only the
bookkeeping matters. -/
def iIdle : PlayerInput :=
  { id := 1, forward := false, backward := false, left := false, right := false,
    jump := false, pitch := 0, yaw := 0, final_translation := Vec3.zero,
    timestamp := 0 }

/-- A second neutral input with a distinct id. -/
def iIdle2 : PlayerInput := { iIdle with id := 2 }

/-- A third neutral input with a distinct id. -/
def iIdle3 : PlayerInput := { iIdle with id := 3 }

/-- The server-side cache entry of the continuity-fallback scenario: no queued
batches, one previously applied (forward) input. -/
def entryC2 : PlayerInputCacheEntry :=
  { input_groups := [], latest_processed_input := some iFwd,
    client_latest_processed_snapshot_id := none }

/-- The character of the continuity-fallback scenario: velocity `(1,0,0)` and
the movement tuning constants of src/main.rs:23-25 (speed 5, accel 8,
friction 8). -/
def charC2 : Character :=
  { owner_client_id := 1, move_accel := 8, move_speed := 5, move_friction := 8,
    velocity := ⟨1, 0, 0⟩, pitch := 0, yaw := 0 }

/-- A full snapshot with one entity (owner 1) at translation `(1,2,3)` with
velocity `(4,5,6)`. -/
def snapS : Snapshot :=
  { id := 6, latest_processed_input_id := none,
    character_snapshots := [⟨1, some ⟨1, 2, 3⟩, some ⟨4, 5, 6⟩⟩],
    timestamp := 0 }

/-- A full baseline snapshot with the same entity at the origin. -/
def snapB : Snapshot :=
  { id := 5, latest_processed_input_id := none,
    character_snapshots := [⟨1, some ⟨0, 0, 0⟩, some ⟨0, 0, 0⟩⟩],
    timestamp := 0 }

/-- The character matching the entity state recorded in `snapB`. -/
def charB : Character :=
  { owner_client_id := 1, move_accel := 8, move_speed := 5, move_friction := 8,
    velocity := ⟨0, 0, 0⟩, pitch := 0, yaw := 0 }

/-- A buffered input whose recorded final translation is the origin, named as
processed by the authority in the correction scenario. -/
def lpiW : PlayerInput := { iIdle3 with final_translation := Vec3.zero }

/-- A snapshot entity entry for owner 7 whose authoritative translation
diverges from the final translation recorded in `lpiW` by squared distance 1. -/
def csW : CharacterSnapshot := ⟨7, some ⟨1, 0, 0⟩, some ⟨0, 0, 0⟩⟩

/-- The locally predicted character of the correction scenario (owner 7,
pitch 1/2, yaw 1/3). -/
def charW : Character :=
  { owner_client_id := 7, move_accel := 8, move_speed := 5, move_friction := 8,
    velocity := ⟨0, 0, 0⟩, pitch := 1/2, yaw := 1/3 }

/-- A cache entry for a client that connected but never had an input
processed: no queued batches and no last-applied input. -/
def entryIdle : PlayerInputCacheEntry :=
  { input_groups := [], latest_processed_input := none,
    client_latest_processed_snapshot_id := none }

/-- A client state that has already processed snapshot id 10. -/
def stW : ClientState :=
  { latest_processed_snapshot_id := some 10
    input_groups := [[iIdle]]
    characters := [(charW, ⟨2, 0, 0⟩)] }

/-- An incoming snapshot with the stale id 10. -/
def snapStale : Snapshot :=
  { id := 10, latest_processed_input_id := some 3,
    character_snapshots := [⟨7, some ⟨9, 9, 9⟩, some ⟨9, 9, 9⟩⟩],
    timestamp := 0 }

/-! Componentwise unfolding lemmas for the `Vec3` arithmetic instances. -/

theorem Vec3.add_def (a b : Vec3) :
    a + b = ⟨a.x + b.x, a.y + b.y, a.z + b.z⟩ := rfl

theorem Vec3.sub_def (a b : Vec3) :
    a - b = ⟨a.x - b.x, a.y - b.y, a.z - b.z⟩ := rfl

theorem Vec3.mul_def (a : Vec3) (k : ℚ) :
    a * k = ⟨a.x * k, a.y * k, a.z * k⟩ := rfl

theorem Vec3.div_def (a : Vec3) (k : ℚ) :
    a / k = ⟨a.x / k, a.y / k, a.z / k⟩ := rfl

theorem Vec3.normSq_nonneg (v : Vec3) : 0 ≤ v.normSq := by
  unfold Vec3.normSq
  nlinarith [mul_self_nonneg v.x, mul_self_nonneg v.y, mul_self_nonneg v.z]

theorem Vec3.normSq_mul (v : Vec3) (k : ℚ) :
    (v * k).normSq = v.normSq * (k * k) := by
  simp only [Vec3.mul_def, Vec3.normSq]
  ring

/-- Branch-free form of `Character::accelerate`. -/
theorem accelerate_eq (wd : Vec3) (ws cs a dt : ℚ) :
    Character.accelerate wd ws cs a dt =
      if ws - cs ≤ 0 then Vec3.zero
      else wd * (if ws - cs < a * dt * ws then ws - cs else a * dt * ws) := rfl

/-- Branch-free form of `Character::deccelerate`. -/
theorem deccelerate_eq (v : Vec3) (cs f dt : ℚ) :
    Character.deccelerate v cs f dt =
      v * (if (if cs - (0 + cs * f * dt) < 0 then (0:ℚ)
               else cs - (0 + cs * f * dt)) ≠ 0
           then (if cs - (0 + cs * f * dt) < 0 then (0:ℚ)
               else cs - (0 + cs * f * dt)) / cs
           else (if cs - (0 + cs * f * dt) < 0 then (0:ℚ)
               else cs - (0 + cs * f * dt))) := rfl

/-- Claim C9: on a server fixed tick, an entity whose owner has an input cache
entry that has no queued batches and no last-applied input is left completely
unchanged (translation, velocity, pitch and yaw included). -/
theorem idle_entity_unchanged (ops : MathOps) (dt : ℚ)
    (entry : PlayerInputCacheEntry) (c : Character) (t : Vec3)
    (hg : entry.input_groups = [])
    (hl : entry.latest_processed_input = none) :
    input_processing_tick ops dt entry c t = (entry, c, t) := by
  unfold input_processing_tick
  rw [hg, hl]
  simp

theorem idle_entity_unchanged_witness :
    entryIdle.input_groups = [] ∧
    entryIdle.latest_processed_input = none ∧
    input_processing_tick opsW (1/64) entryIdle charW ⟨0, 0, 0⟩ =
      (entryIdle, charW, ⟨0, 0, 0⟩) :=
  ⟨rfl, rfl, idle_entity_unchanged opsW (1/64) entryIdle charW ⟨0, 0, 0⟩ rfl rfl⟩

/-- Claim C3: a client whose last processed snapshot id is `n` discards any
incoming snapshot with id ≤ n before touching any state: characters, input
groups and the recorded last-processed id (which stays `n`) are unchanged. -/
theorem stale_snapshot_ignored (ops : MathOps) (dt : ℚ) (local_id n : ℕ)
    (st : ClientState) (snapshot : Snapshot)
    (hn : st.latest_processed_snapshot_id = some n)
    (hid : snapshot.id ≤ n) :
    receive_snapshot ops dt local_id st snapshot = st := by
  unfold receive_snapshot
  rw [hn]
  simp [Nat.not_lt.mpr hid]

theorem stale_snapshot_ignored_witness :
    stW.latest_processed_snapshot_id = some 10 ∧
    snapStale.id ≤ 10 ∧
    receive_snapshot opsW (1/64) 7 stW snapStale = stW :=
  ⟨rfl, by decide,
    stale_snapshot_ignored opsW (1/64) 7 10 stW snapStale rfl (by decide)⟩

/-- Claim C7: whenever the client performs a misprediction correction (local
entity, snapshot translation present, authority-processed input still
buffered, squared divergence above the 0.0001 epsilon), the pitch
and yaw of the character after the correction-and-replay equal their values immediately before
it, although translation/velocity are overwritten and newer inputs replayed. -/
theorem correction_preserves_pitch_yaw (ops : MathOps) (dt : ℚ)
    (local_id lid : ℕ) (snap_lid : Option ℕ)
    (groups : List (List PlayerInput)) (cs : CharacterSnapshot)
    (c : Character) (t : Vec3) (st : Vec3) (lpi : PlayerInput)
    (hlocal : cs.client_id = local_id)
    (htrans : cs.translation = some st)
    (hsl : snap_lid = some lid)
    (hfind : groups.flatten.find? (fun input => input.id == lid) = some lpi)
    (hdist : 1/10000 < (st - lpi.final_translation).normSq) :
    (clientProcessCharacterSnapshot ops dt local_id snap_lid groups cs
        c t).2.1.pitch = c.pitch ∧
    (clientProcessCharacterSnapshot ops dt local_id snap_lid groups cs
        c t).2.1.yaw = c.yaw := by
  unfold clientProcessCharacterSnapshot
  rw [htrans, hsl]
  simp only [hlocal, beq_self_eq_true, if_true]
  rw [hfind]
  simp only [hdist, ite_true]
  unfold applyLocalCorrection
  constructor <;> rfl

theorem correction_preserves_pitch_yaw_witness :
    csW.client_id = 7 ∧
    csW.translation = some ⟨1, 0, 0⟩ ∧
    (some 3 : Option ℕ) = some 3 ∧
    ([[lpiW]] : List (List PlayerInput)).flatten.find?
      (fun input => input.id == 3) = some lpiW ∧
    (1:ℚ)/10000 < ((⟨1, 0, 0⟩ : Vec3) - lpiW.final_translation).normSq ∧
    (clientProcessCharacterSnapshot opsW (1/64) 7 (some 3) [[lpiW]] csW
        charW ⟨2, 0, 0⟩).2.1.pitch = charW.pitch ∧
    (clientProcessCharacterSnapshot opsW (1/64) 7 (some 3) [[lpiW]] csW
        charW ⟨2, 0, 0⟩).2.1.yaw = charW.yaw := by
  refine ⟨rfl, rfl, rfl, rfl, ?_, ?_, ?_⟩
  · norm_num [lpiW, iIdle3, iIdle, Vec3.zero, Vec3.sub_def, Vec3.normSq]
  · exact (correction_preserves_pitch_yaw opsW (1/64) 7 3 (some 3) [[lpiW]]
      csW charW ⟨2, 0, 0⟩ ⟨1, 0, 0⟩ lpiW rfl rfl rfl rfl
      (by norm_num [lpiW, iIdle3, iIdle, Vec3.zero, Vec3.sub_def,
        Vec3.normSq])).1
  · exact (correction_preserves_pitch_yaw opsW (1/64) 7 3 (some 3) [[lpiW]]
      csW charW ⟨2, 0, 0⟩ ⟨1, 0, 0⟩ lpiW rfl rfl rfl rfl
      (by norm_num [lpiW, iIdle3, iIdle, Vec3.zero, Vec3.sub_def,
        Vec3.normSq])).2

/-- Claim C6: for non-negative current speed, top speed, acceleration constant
and time slice, `Character::accelerate` returns the zero vector when the
current speed has reached the top speed, and otherwise a scalar multiple of
the wish direction whose scale (the added speed) is non-negative and at most
the speed deficit, so it never overshoots the top speed. -/
theorem accelerate_no_overshoot (wd : Vec3) (ws cs a dt : ℚ)
    (hws : 0 ≤ ws) (hcs : 0 ≤ cs) (ha : 0 ≤ a) (hdt : 0 ≤ dt) :
    (ws ≤ cs → Character.accelerate wd ws cs a dt = Vec3.zero) ∧
    (cs < ws → ∃ s : ℚ, 0 ≤ s ∧ s ≤ ws - cs ∧
      Character.accelerate wd ws cs a dt = wd * s) := by
  rw [accelerate_eq]
  constructor
  · intro h
    rw [if_pos (by linarith)]
  · intro h
    rw [if_neg (by simp; linarith)]
    by_cases hc : ws - cs < a * dt * ws
    · exact ⟨ws - cs, by linarith, le_refl _, by rw [if_pos hc]⟩
    · exact ⟨a * dt * ws, by positivity, by linarith [not_lt.mp hc],
        by rw [if_neg hc]⟩

theorem accelerate_no_overshoot_witness :
    (0:ℚ) ≤ 5 ∧ (0:ℚ) ≤ 5 ∧ (0:ℚ) ≤ 8 ∧ (0:ℚ) ≤ 1/64 ∧
    Character.accelerate ⟨0, 0, -1⟩ 5 5 8 (1/64) = Vec3.zero :=
  ⟨by norm_num, by norm_num, by norm_num, by norm_num,
    (accelerate_no_overshoot ⟨0, 0, -1⟩ 5 5 8 (1/64) (by norm_num)
      (by norm_num) (by norm_num) (by norm_num)).1 (le_refl 5)⟩

/-- Claim C10: for non-negative current speed, friction and time slice (with
the current speed being the length of the velocity, stated via squares), the
deceleration step is total — the division is reached only when the floored
reduced speed is non-zero, which forces a strictly positive current speed, so
no division by zero occurs — and the speed of the returned velocity lies within
[0, current speed] (stated on squared norms). -/
theorem deccelerate_total_and_bounded (v : Vec3) (cs f dt : ℚ)
    (hcs : 0 ≤ cs) (hf : 0 ≤ f) (hdt : 0 ≤ dt)
    (hlen : cs * cs = v.normSq) :
    ((if cs - (0 + cs * f * dt) < 0 then (0:ℚ)
        else cs - (0 + cs * f * dt)) ≠ 0 → 0 < cs) ∧
    0 ≤ (Character.deccelerate v cs f dt).normSq ∧
    (Character.deccelerate v cs f dt).normSq ≤ cs * cs := by
  have hdrop : 0 ≤ 0 + cs * f * dt := by positivity
  refine ⟨?_, Vec3.normSq_nonneg _, ?_⟩
  · intro h
    by_cases hlt : cs - (0 + cs * f * dt) < 0
    · rw [if_pos hlt] at h
      exact absurd rfl h
    · rw [if_neg hlt] at h
      have h0 : 0 ≤ cs - (0 + cs * f * dt) := not_lt.mp hlt
      have : 0 < cs - (0 + cs * f * dt) := lt_of_le_of_ne h0 (Ne.symm h)
      linarith
  · have hk : ∃ k : ℚ, 0 ≤ k ∧ k ≤ 1 ∧
        Character.deccelerate v cs f dt = v * k := by
      by_cases hlt : cs - (0 + cs * f * dt) < 0
      · refine ⟨0, le_refl 0, by norm_num, ?_⟩
        rw [deccelerate_eq]
        simp only [if_pos hlt]
        norm_num
      · by_cases h0 : cs - (0 + cs * f * dt) = 0
        · refine ⟨0, le_refl 0, by norm_num, ?_⟩
          rw [deccelerate_eq]
          simp only [if_neg hlt, h0]
          norm_num
        · have hpos : 0 < cs - (0 + cs * f * dt) :=
            lt_of_le_of_ne (not_lt.mp hlt) (Ne.symm h0)
          have hcs0 : 0 < cs := by linarith
          refine ⟨(cs - (0 + cs * f * dt)) / cs, by positivity, ?_, ?_⟩
          · rw [div_le_one hcs0]
            linarith
          · rw [deccelerate_eq]
            simp only [if_neg hlt]
            rw [if_pos h0]
    obtain ⟨k, hk0, hk1, hvk⟩ := hk
    rw [hvk, Vec3.normSq_mul, ← hlen]
    have hkk : k * k ≤ 1 := by nlinarith
    nlinarith [mul_self_nonneg cs]

theorem deccelerate_total_and_bounded_witness :
    (0:ℚ) ≤ 1 ∧ (0:ℚ) ≤ 1 ∧ (0:ℚ) ≤ 1 ∧
    (1:ℚ) * 1 = Vec3.normSq ⟨1, 0, 0⟩ ∧
    0 ≤ (Character.deccelerate ⟨1, 0, 0⟩ 1 1 1).normSq ∧
    (Character.deccelerate ⟨1, 0, 0⟩ 1 1 1).normSq ≤ 1 * 1 :=
  ⟨by norm_num, by norm_num, by norm_num, by norm_num [Vec3.normSq],
    (deccelerate_total_and_bounded ⟨1, 0, 0⟩ 1 1 1 (by norm_num) (by norm_num)
      (by norm_num) (by norm_num [Vec3.normSq])).2.1,
    (deccelerate_total_and_bounded ⟨1, 0, 0⟩ 1 1 1 (by norm_num) (by norm_num)
      (by norm_num) (by norm_num [Vec3.normSq])).2.2⟩

/-- Claim C5 (code bug): at any divergence above the threshold the
step fraction of the smoother is constantly `SMOOTH_CORRECTION_STEP_MIN` — the scale term
`(threshold - diff).max(0)` is 0 there — exhibited at the divergences 2/1000
and 4/1000, both above the threshold 1/1000 yet with equal steps, so the step
is not larger for larger divergence as the spec requires. -/
theorem smoother_step_constant_above_threshold :
    dynamicStep (2/1000) = SMOOTH_CORRECTION_STEP_MIN ∧
    dynamicStep (4/1000) = SMOOTH_CORRECTION_STEP_MIN ∧
    SMOOTH_CORRECTION_DISTANCE_THRESHOLD < 2/1000 ∧
    SMOOTH_CORRECTION_DISTANCE_THRESHOLD < 4/1000 ∧
    dynamicStep (2/1000) = dynamicStep (4/1000) := by
  norm_num [dynamicStep, SMOOTH_CORRECTION_DISTANCE_THRESHOLD,
    SMOOTH_CORRECTION_STEP_MIN, SMOOTH_CORRECTION_STEP_MAX, max_def]

/-! Lemmas about the snapshot diff engine. -/

theorem client_id_of_diff (a b : CharacterSnapshot) :
    (a.diff b).client_id = a.client_id := rfl

theorem is_empty_diff_self (cs : CharacterSnapshot) :
    (cs.diff cs).is_empty = true := by
  obtain ⟨cid, tr, vel⟩ := cs
  cases tr <;> cases vel <;>
    simp [CharacterSnapshot.diff, CharacterSnapshot.is_empty]

theorem find?_self_of_nodup :
    ∀ (l : List CharacterSnapshot) (cs : CharacterSnapshot),
    (l.map CharacterSnapshot.client_id).Nodup → cs ∈ l →
    l.find? (fun o => o.client_id == cs.client_id) = some cs := by
  intro l
  induction l with
  | nil =>
    intro cs _ h
    exact absurd h (List.not_mem_nil cs)
  | cons a t ih =>
    intro cs hnodup hmem
    simp only [List.map_cons, List.nodup_cons] at hnodup
    rcases List.mem_cons.mp hmem with h1 | h2
    · subst h1
      simp [List.find?_cons]
    · have hne : (a.client_id == cs.client_id) = false := by
        simp only [beq_eq_false_iff_ne, ne_eq]
        intro he
        exact hnodup.1
          (he ▸ List.mem_map_of_mem CharacterSnapshot.client_id h2)
      simp only [List.find?_cons, hne]
      exact ih cs hnodup.2 h2

theorem client_id_mem_of_mem_diffEntries (new old : List CharacterSnapshot) :
    ∀ d ∈ diffEntries new old,
    d.client_id ∈ new.map CharacterSnapshot.client_id := by
  intro d hd
  rcases List.mem_filterMap.mp hd with ⟨s, hs, himg⟩
  cases hfind : old.find? (fun o => o.client_id == s.client_id) with
  | some o =>
    rw [hfind] at himg
    by_cases he : (s.diff o).is_empty
    · simp [he] at himg
    · have h2 : some (s.diff o) = some d := by
        simpa [he] using himg
      injection h2 with h3
      rw [← h3, client_id_of_diff]
      exact List.mem_map_of_mem CharacterSnapshot.client_id hs
  | none =>
    rw [hfind] at himg
    injection himg with h3
    rw [← h3]
    exact List.mem_map_of_mem CharacterSnapshot.client_id hs

theorem find?_diffEntries_eq_none (new old : List CharacterSnapshot)
    (cid : ℕ) (h : cid ∉ new.map CharacterSnapshot.client_id) :
    (diffEntries new old).find? (fun e => e.client_id == cid) = none := by
  rw [List.find?_eq_none]
  intro d hd
  simp only [beq_iff_eq]
  intro he
  exact h (he ▸ client_id_mem_of_mem_diffEntries new old d hd)

theorem diffEntries_cons (a : CharacterSnapshot)
    (t old : List CharacterSnapshot) :
    diffEntries (a :: t) old =
      match old.find? (fun o => o.client_id == a.client_id) with
      | some o =>
        if (a.diff o).is_empty then diffEntries t old
        else a.diff o :: diffEntries t old
      | none => a :: diffEntries t old := by
  unfold diffEntries
  rw [List.filterMap_cons]
  cases old.find? (fun o => o.client_id == a.client_id) with
  | none => rfl
  | some o =>
    by_cases h : (a.diff o).is_empty
    · simp [h]
    · simp [h]

theorem find?_diffEntries_of_nodup :
    ∀ (new old : List CharacterSnapshot) (cid : ℕ)
      (eS eB : CharacterSnapshot),
    (new.map CharacterSnapshot.client_id).Nodup →
    new.find? (fun e => e.client_id == cid) = some eS →
    old.find? (fun e => e.client_id == cid) = some eB →
    (diffEntries new old).find? (fun e => e.client_id == cid) =
      (if (eS.diff eB).is_empty then none else some (eS.diff eB)) := by
  intro new
  induction new with
  | nil =>
    intro old cid eS eB _ hfS _
    simp [List.find?] at hfS
  | cons a t ih =>
    intro old cid eS eB hnodup hfS hfB
    simp only [List.map_cons, List.nodup_cons] at hnodup
    by_cases ha : (a.client_id == cid) = true
    · have heS : a = eS := by
        simp only [List.find?_cons, ha] at hfS
        injection hfS
      subst heS
      have hacid : a.client_id = cid := by simpa using ha
      have hfB2 : old.find? (fun o => o.client_id == a.client_id) = some eB := by
        rw [hacid]
        exact hfB
      simp only [diffEntries_cons, hfB2]
      by_cases hemp : (a.diff eB).is_empty
      · rw [if_pos hemp, if_pos hemp]
        exact find?_diffEntries_eq_none t old cid (hacid ▸ hnodup.1)
      · rw [if_neg hemp, if_neg hemp]
        rw [List.find?_cons]
        have hpos : ((a.diff eB).client_id == cid) = true := by
          rw [client_id_of_diff]
          exact ha
        simp only [hpos]
    · have hfalse : (a.client_id == cid) = false := by simpa using ha
      have hfS2 : t.find? (fun e => e.client_id == cid) = some eS := by
        simpa only [List.find?_cons, hfalse] using hfS
      cases hf2 : old.find? (fun o => o.client_id == a.client_id) with
      | none =>
        simp only [diffEntries_cons, hf2]
        rw [List.find?_cons]
        simp only [hfalse]
        exact ih old cid eS eB hnodup.2 hfS2 hfB
      | some o =>
        simp only [diffEntries_cons, hf2]
        by_cases hemp : (a.diff o).is_empty
        · rw [if_pos hemp]
          exact ih old cid eS eB hnodup.2 hfS2 hfB
        · rw [if_neg hemp]
          rw [List.find?_cons]
          have hpos : ((a.diff o).client_id == cid) = false := by
            rw [client_id_of_diff]
            exact hfalse
          simp only [hpos]
          exact ih old cid eS eB hnodup.2 hfS2 hfB

/-- Claim C1: for world snapshots `S` and `B` whose relevant entries carry
both translation and velocity (as produced from live characters, with one
entry per entity), applying `diff(S, B)` on top of the state described by `B`
reproduces the translation and velocity of `S` for any entity present in both. -/
theorem diff_roundtrip (S B : Snapshot) (cid : ℕ)
    (eS eB : CharacterSnapshot)
    (hnodup : (S.character_snapshots.map CharacterSnapshot.client_id).Nodup)
    (hfS : S.character_snapshots.find? (fun e => e.client_id == cid) = some eS)
    (hfB : B.character_snapshots.find? (fun e => e.client_id == cid) = some eB)
    (tS vS tB vB : Vec3)
    (heSt : eS.translation = some tS) (heSv : eS.velocity = some vS)
    (heBt : eB.translation = some tB) (heBv : eB.velocity = some vB)
    (c : Character) (t : Vec3) (hcv : c.velocity = vB) (ht : t = tB) :
    applyEntryFor (S.diff B).character_snapshots cid c t =
      ({ c with velocity := vS }, tS) := by
  have hfind := find?_diffEntries_of_nodup S.character_snapshots
      B.character_snapshots cid eS eB hnodup hfS hfB
  unfold applyEntryFor
  have hdcs : (S.diff B).character_snapshots =
      diffEntries S.character_snapshots B.character_snapshots := rfl
  rw [hdcs, hfind]
  obtain ⟨co, ca, cms, cmf, cv, cp, cy⟩ := c
  simp only at hcv
  subst hcv
  subst ht
  by_cases hemp : (eS.diff eB).is_empty
  · rw [if_pos hemp]
    unfold CharacterSnapshot.diff CharacterSnapshot.is_empty at hemp
    rw [heSt, heSv, heBt, heBv] at hemp
    by_cases h1 : tS = t <;> by_cases h2 : vS = cv <;>
      simp [h1, h2] at hemp ⊢
  · rw [if_neg hemp]
    unfold CharacterSnapshot.diff CharacterSnapshot.is_empty at hemp
    rw [heSt, heSv, heBt, heBv] at hemp
    unfold CharacterSnapshot.apply CharacterSnapshot.diff
    rw [heSt, heSv, heBt, heBv]
    by_cases h1 : tS = t <;> by_cases h2 : vS = cv <;>
      simp [h1, h2] at hemp ⊢

theorem diff_roundtrip_witness :
    (snapS.character_snapshots.map CharacterSnapshot.client_id).Nodup ∧
    snapS.character_snapshots.find? (fun e => e.client_id == 1) =
      some ⟨1, some ⟨1, 2, 3⟩, some ⟨4, 5, 6⟩⟩ ∧
    snapB.character_snapshots.find? (fun e => e.client_id == 1) =
      some ⟨1, some ⟨0, 0, 0⟩, some ⟨0, 0, 0⟩⟩ ∧
    applyEntryFor (snapS.diff snapB).character_snapshots 1 charB ⟨0, 0, 0⟩ =
      ({ charB with velocity := ⟨4, 5, 6⟩ }, ⟨1, 2, 3⟩) :=
  ⟨by simp [snapS], rfl, rfl,
    diff_roundtrip snapS snapB 1 ⟨1, some ⟨1, 2, 3⟩, some ⟨4, 5, 6⟩⟩
      ⟨1, some ⟨0, 0, 0⟩, some ⟨0, 0, 0⟩⟩ (by simp [snapS]) rfl rfl
      ⟨1, 2, 3⟩ ⟨4, 5, 6⟩ ⟨0, 0, 0⟩ ⟨0, 0, 0⟩ rfl rfl rfl rfl
      charB ⟨0, 0, 0⟩ rfl rfl⟩

/-- Claim C8: diffing a world snapshot against itself (one entry per live
entity, as the server builds it) yields a snapshot with zero entity entries:
every per-entity diff is empty and is filtered out. -/
theorem diff_self_no_entries (S : Snapshot)
    (hnodup : (S.character_snapshots.map CharacterSnapshot.client_id).Nodup) :
    (S.diff S).character_snapshots = [] := by
  have hdcs : (S.diff S).character_snapshots =
      diffEntries S.character_snapshots S.character_snapshots := rfl
  rw [hdcs]
  unfold diffEntries
  rw [List.filterMap_eq_nil_iff]
  intro cs hcs
  rw [find?_self_of_nodup S.character_snapshots cs hnodup hcs]
  simp [is_empty_diff_self cs]

theorem diff_self_no_entries_witness :
    (snapS.character_snapshots.map CharacterSnapshot.client_id).Nodup ∧
    (snapS.diff snapS).character_snapshots = [] :=
  ⟨by simp [snapS], diff_self_no_entries snapS (by simp [snapS])⟩

/-! Lemmas about the time slicing of the server. -/

theorem serverProcessGroups_eq_applySlices (ops : MathOps) (chopped : ℚ) :
    ∀ (groups : List (List PlayerInput)) (c : Character) (t : Vec3)
      (latest : Option PlayerInput),
    serverProcessGroups ops chopped groups c t latest =
      applySlices ops (serverSlices chopped groups) c t latest := by
  intro groups
  induction groups with
  | nil =>
    intro c t latest
    rfl
  | cons g rest ih =>
    intro c t latest
    by_cases hg : g.isEmpty
    · have hnil : g = [] := List.isEmpty_iff.mp hg
      subst hnil
      have hstep : serverProcessGroups ops chopped ([] :: rest) c t latest =
          serverProcessGroups ops chopped rest c t latest := rfl
      rw [hstep, ih]
      have hsl : serverSlices chopped ([] :: rest) =
          serverSlices chopped rest := by
        simp [serverSlices, List.flatMap_cons]
      rw [hsl]
    · have hge : g.isEmpty = false := by
        cases h : g.isEmpty
        · rfl
        · exact absurd h hg
      unfold serverProcessGroups serverProcessGroup
      rw [if_neg hg, ih]
      have hsl : serverSlices chopped (g :: rest) =
          (g.map fun i => (i, chopped / (g.length : ℚ))) ++
            serverSlices chopped rest := by
        simp [serverSlices, List.flatMap_cons, hge]
      rw [hsl]
      simp only [applySlices, List.foldl_append, List.foldl_map]

theorem sum_map_const_q :
    ∀ (l : List PlayerInput) (q : ℚ),
    (l.map (fun _ => q)).sum = (l.length : ℚ) * q := by
  intro l q
  induction l with
  | nil => simp
  | cons a t ih =>
    simp only [List.map_cons, List.sum_cons, ih, List.length_cons]
    push_cast
    ring

theorem serverSlices_sum (chopped : ℚ) :
    ∀ groups : List (List PlayerInput),
    (∀ g ∈ groups, g ≠ []) →
    ((serverSlices chopped groups).map Prod.snd).sum =
      (groups.length : ℚ) * chopped := by
  intro groups
  induction groups with
  | nil =>
    intro _
    simp [serverSlices]
  | cons g rest ih =>
    intro hall
    have hg : g ≠ [] := hall g (List.mem_cons_self g rest)
    have hge : g.isEmpty = false := by simpa [List.isEmpty_iff] using hg
    have hlen0 : (g.length : ℚ) ≠ 0 := by
      simpa using hg
    have hhead : ((g.map fun i =>
        (i, chopped / (g.length : ℚ))).map Prod.snd).sum = chopped := by
      rw [List.map_map]
      have : (Prod.snd ∘ fun i : PlayerInput =>
          (i, chopped / (g.length : ℚ))) =
          fun _ => chopped / (g.length : ℚ) := rfl
      rw [this, sum_map_const_q]
      field_simp
    simp only [serverSlices, List.flatMap_cons, hge, Bool.false_eq_true,
      if_false, List.map_append, List.sum_append]
    rw [hhead]
    have := ih (fun x hx => hall x (List.mem_cons_of_mem g hx))
    simp only [serverSlices] at this
    rw [this]
    simp only [List.length_cons]
    push_cast
    ring

theorem serverSlices_fst (chopped : ℚ) :
    ∀ groups : List (List PlayerInput),
    (serverSlices chopped groups).map Prod.fst = groups.flatten := by
  intro groups
  induction groups with
  | nil => rfl
  | cons g rest ih =>
    by_cases hg : g.isEmpty
    · have hnil : g = [] := List.isEmpty_iff.mp hg
      subst hnil
      simpa [serverSlices, List.flatMap_cons] using ih
    · have hge : g.isEmpty = false := by
        cases h : g.isEmpty
        · rfl
        · exact absurd h hg
      have hsl : serverSlices chopped (g :: rest) =
          (g.map fun i => (i, chopped / (g.length : ℚ))) ++
            serverSlices chopped rest := by
        simp [serverSlices, List.flatMap_cons, hge]
      rw [hsl, List.map_append, ih, List.map_map]
      rw [show (Prod.fst ∘ fun i : PlayerInput =>
            (i, chopped / (g.length : ℚ))) = id from rfl, List.map_id,
        List.flatten_cons]

theorem mem_serverSlices (chopped : ℚ) (groups : List (List PlayerInput))
    (g : List PlayerInput) (i : PlayerInput) (hg : g ∈ groups) (hi : i ∈ g) :
    (i, chopped / (g.length : ℚ)) ∈ serverSlices chopped groups := by
  unfold serverSlices
  rw [List.mem_flatMap]
  refine ⟨g, hg, ?_⟩
  have hge : g.isEmpty = false := by
    cases g
    · exact absurd hi (List.not_mem_nil i)
    · rfl
  rw [hge]
  simp only [Bool.false_eq_true, if_false]
  exact List.mem_map_of_mem _ hi

/-- Claim C4 (amended): on a server tick with `k ≥ 1` queued batches, the
queued-batches loop consumes exactly the (input, slice) pairs of
`serverSlices`, applying every queued entry in order (their sequence is the
concatenation of the batches); each entry of a batch of length `m` receives
slice `Δt / k / m`; and when every queued batch is non-empty the slices sum to
exactly the tick `Δt`.  (As the counterexample shows, an empty queued batch
forfeits its `Δt / k` share, so the unconditional sum claim fails.) -/
theorem server_time_slicing_amended (ops : MathOps) (dt : ℚ)
    (groups : List (List PlayerInput)) (c : Character) (t : Vec3)
    (latest : Option PlayerInput)
    (hne : groups ≠ []) (hall : ∀ g ∈ groups, g ≠ []) :
    serverProcessGroups ops (dt / (groups.length : ℚ)) groups c t latest =
      applySlices ops (serverSlices (dt / (groups.length : ℚ)) groups)
        c t latest ∧
    (serverSlices (dt / (groups.length : ℚ)) groups).map Prod.fst =
      groups.flatten ∧
    ((serverSlices (dt / (groups.length : ℚ)) groups).map Prod.snd).sum =
      dt ∧
    ∀ g ∈ groups, ∀ i ∈ g,
      (i, dt / (groups.length : ℚ) / (g.length : ℚ)) ∈
        serverSlices (dt / (groups.length : ℚ)) groups := by
  refine ⟨serverProcessGroups_eq_applySlices ops _ groups c t latest,
    serverSlices_fst _ groups, ?_,
    fun g hg i hi => mem_serverSlices _ groups g i hg hi⟩
  rw [serverSlices_sum _ groups hall]
  have h0 : (groups.length : ℚ) ≠ 0 := by
    simpa using hne
  field_simp

theorem server_time_slicing_amended_witness :
    ([[iIdle], [iIdle2], [iIdle3]] : List (List PlayerInput)) ≠ [] ∧
    ((serverSlices ((1/64 : ℚ) /
        (([[iIdle], [iIdle2], [iIdle3]] : List (List PlayerInput)).length : ℚ))
      [[iIdle], [iIdle2], [iIdle3]]).map Prod.snd).sum = 1/64 :=
  ⟨by simp,
    (server_time_slicing_amended opsW (1/64) [[iIdle], [iIdle2], [iIdle3]]
      charW ⟨0, 0, 0⟩ none (by simp)
      (by intro g hg; fin_cases hg <;> simp)).2.2.1⟩

/-- Claim C4 (counterexample): with two queued batches of which one is empty
(`Δt = 1/64`), the applied slices sum to `1/128`, not the full tick `Δt`:
the share of the tick owned by the empty batch is dropped, refuting the unconditional
"sum equals exactly Δt" claim. -/
theorem server_time_slicing_counterexample :
    ((serverSlices ((1/64 : ℚ) /
        (([[iIdle], []] : List (List PlayerInput)).length : ℚ))
      [[iIdle], []]).map Prod.snd).sum = 1/128 ∧
    ((1:ℚ)/128) ≠ 1/64 := by
  constructor
  · norm_num [serverSlices, List.flatMap_cons]
  · norm_num

/-- Claim C2: on a server tick where the owner has no queued batches but a
previously applied input exists, the stepper re-applies exactly that single
input at the full tick Δt, and the translation advances by the
(updated) velocity of the entity times Δt — the `translation += velocity * Δt`
of the code.  In
the concrete scenario (velocity `(1,0,0)`, Δt = 1/64 s, tuning constants of
src/main.rs, previously applied forward input at yaw 0) the velocity becomes
`(7/8, 0, -5/8)` after friction and acceleration, and `translation.x`
strictly increases, by `velocity.x * Δt`. -/
theorem continuity_fallback (ops : MathOps) (dt : ℚ)
    (entry : PlayerInputCacheEntry) (c : Character) (t : Vec3)
    (i : PlayerInput)
    (hg : entry.input_groups = [])
    (hl : entry.latest_processed_input = some i)
    (hcos : ops.cos 0 = 1) (hsin : ops.sin 0 = 0)
    (hs1 : ops.sqrt 1 = 1) (hs49 : ops.sqrt (49/64) = 7/8) :
    (input_processing_tick ops dt entry c t).2 =
      ((c.process_input ops i t dt).1, (c.process_input ops i t dt).2.1) ∧
    (input_processing_tick ops dt entry c t).2.2 =
      t + (input_processing_tick ops dt entry c t).2.1.velocity * dt ∧
    (input_processing_tick ops (1/64) entryC2 charC2 ⟨0, 0, 0⟩).2.1.velocity =
      ⟨7/8, 0, -(5/8)⟩ ∧
    (input_processing_tick ops (1/64) entryC2 charC2 ⟨0, 0, 0⟩).2.2.x =
      0 + (input_processing_tick ops (1/64) entryC2 charC2
        ⟨0, 0, 0⟩).2.1.velocity.x * (1/64) ∧
    0 < (input_processing_tick ops (1/64) entryC2 charC2 ⟨0, 0, 0⟩).2.2.x := by
  have hb : (input_processing_tick ops dt entry c t).2 =
      ((c.process_input ops i t dt).1, (c.process_input ops i t dt).2.1) := by
    unfold input_processing_tick
    rw [hg, hl]
    rfl
  have hconc : (input_processing_tick ops (1/64) entryC2 charC2
        ⟨0, 0, 0⟩).2 =
      ((charC2.process_input ops iFwd ⟨0, 0, 0⟩ (1/64)).1,
        (charC2.process_input ops iFwd ⟨0, 0, 0⟩ (1/64)).2.1) := rfl
  have hvel : (charC2.process_input ops iFwd ⟨0, 0, 0⟩ (1/64)).1.velocity =
      ⟨7/8, 0, -(5/8)⟩ := by
    norm_num [Character.process_input, charC2, iFwd,
      PlayerInput.compute_move_direction, RotY.fromYaw, RotY.mulVec3,
      Character.deccelerate, Character.accelerate, Vec3.length,
      Vec3.normalize, Vec3.normSq, Vec3.zero, Vec3.add_def, Vec3.sub_def,
      Vec3.mul_def, Vec3.div_def, hcos, hsin, hs1, hs49]
  have htr : (charC2.process_input ops iFwd ⟨0, 0, 0⟩ (1/64)).2.1 =
      (⟨0, 0, 0⟩ : Vec3) +
        (charC2.process_input ops iFwd ⟨0, 0, 0⟩ (1/64)).1.velocity *
          ((1:ℚ)/64) := rfl
  refine ⟨hb, by rw [hb]; rfl, by rw [hconc]; exact hvel, ?_, ?_⟩
  · rw [hconc, htr, hvel]
    simp [Vec3.add_def, Vec3.mul_def]
  · rw [hconc, htr, hvel]
    norm_num [Vec3.add_def, Vec3.mul_def]

theorem continuity_fallback_witness :
    entryC2.input_groups = [] ∧
    entryC2.latest_processed_input = some iFwd ∧
    opsW.cos 0 = 1 ∧ opsW.sin 0 = 0 ∧
    opsW.sqrt 1 = 1 ∧ opsW.sqrt (49/64) = 7/8 ∧
    0 < (input_processing_tick opsW (1/64) entryC2 charC2 ⟨0, 0, 0⟩).2.2.x :=
  ⟨rfl, rfl, by norm_num [opsW], by norm_num [opsW], by norm_num [opsW],
    by norm_num [opsW],
    (continuity_fallback opsW (1/64) entryC2 charC2 ⟨0, 0, 0⟩ iFwd rfl rfl
      (by norm_num [opsW]) (by norm_num [opsW]) (by norm_num [opsW])
      (by norm_num [opsW])).2.2.2.2⟩

end Netcode
